import Mathlib

/-!
# Verification of the ND pre-upgrade validation worker

Shallow embedding of `worker_functions.py` (the per-node validation worker):
the result/heartbeat aggregation model, the check runner with its fault
boundaries, the `FileCache` index, archive selection and extraction, and the
streaming file scanner.  Line numbers in doc comments refer to
`src/worker_functions.py`.
-/

namespace NDWorker

/-! ## Python string primitives used by the embedded code -/

/-- Python whitespace characters, as stripped by `str.strip()`. -/
def isPySpace (c : Char) : Bool :=
  c = ' ' || c = '\t' || c = '\n' || c = '\r' || c = '\x0b' || c = '\x0c'

/-- Python `str.strip()`: drop leading and trailing whitespace. -/
def pyStrip (s : String) : String :=
  String.mk (((s.data.dropWhile isPySpace).reverse.dropWhile isPySpace).reverse)

/-- Python `str.strip(chars)`: drop leading and trailing characters drawn
from the given set. -/
def pyStripChars (cs : List Char) (s : String) : String :=
  String.mk (((s.data.dropWhile (cs.contains ·)).reverse.dropWhile (cs.contains ·)).reverse)

/-- Does the first character list start with the second? -/
def lstarts : List Char → List Char → Bool
  | _, [] => true
  | [], _ :: _ => false
  | c :: cs, d :: ds => c = d && lstarts cs ds

/-- Does the second character list occur inside the first? -/
def loccurs : List Char → List Char → Bool
  | [], needle => lstarts [] needle
  | c :: t, needle => lstarts (c :: t) needle || loccurs t needle

/-- Python substring membership `needle in hay` (empty needle is a member). -/
def containsSub (hay needle : String) : Bool :=
  loccurs hay.data needle.data

/-! ## fnmatch

`fnmatch.fnmatch(name, pattern)` on POSIX: full-string glob match where
`*` matches any sequence of characters (including `/`), `?` matches one
character, and `[...]` / `[!...]` are character classes; an unterminated
`[` is a literal bracket. -/

/-- Scan a character-class body up to the first closing bracket; returns
the body and the remainder of the pattern, or none if unterminated. -/
def scanClass : List Char → Option (List Char × List Char)
  | [] => none
  | c :: rest =>
    if c = ']' then some ([], rest)
    else (scanClass rest).map (fun p => (c :: p.1, p.2))

/-- Parse a class after the opening bracket: optional negation, then a
body where a leading closing bracket is a literal member. -/
def parseClass (ps : List Char) : Option (Bool × List Char × List Char) :=
  match ps with
  | '!' :: ']' :: t => (scanClass t).map (fun p => (true, ']' :: p.1, p.2))
  | '!' :: t => (scanClass t).map (fun p => (true, p.1, p.2))
  | ']' :: t => (scanClass t).map (fun p => (false, ']' :: p.1, p.2))
  | t => (scanClass t).map (fun p => (false, p.1, p.2))

/-- Membership of a character in a class body, with `a-b` ranges. -/
def classMatch : List Char → Char → Bool
  | x :: '-' :: y :: rest, c =>
    (x ≤ c && c ≤ y) || classMatch rest c
  | x :: rest, c => x = c || classMatch rest c
  | [], _ => false

/-- Glob matching, structurally recursive on a fuel bound.  Every
recursive call strictly decreases `pattern length + string length`
(a class consumes at least one pattern character), so fuel
`ps.length + s.length + 1` always suffices. -/
def globAux : Nat → List Char → List Char → Bool
  | 0, _, _ => false
  | _ + 1, [], s => s.isEmpty
  | fuel + 1, '*' :: ps, s =>
    globAux fuel ps s ||
      (match s with
       | [] => false
       | _ :: s2 => globAux fuel ('*' :: ps) s2)
  | fuel + 1, '?' :: ps, s =>
    (match s with
     | [] => false
     | _ :: s2 => globAux fuel ps s2)
  | fuel + 1, '[' :: ps, s =>
    (match parseClass ps with
     | some (neg, body, rest) =>
       (match s with
        | [] => false
        | c :: s2 => (if neg then !(classMatch body c) else classMatch body c) && globAux fuel rest s2)
     | none =>
       (match s with
        | [] => false
        | c :: s2 => c = '[' && globAux fuel ps s2))
  | fuel + 1, p :: ps, s =>
    (match s with
     | [] => false
     | c :: s2 => p = c && globAux fuel ps s2)

/-- Glob matching of a pattern against a name, both as character lists. -/
def globMatch (ps s : List Char) : Bool :=
  globAux (ps.length + s.length + 1) ps s

/-- `fnmatch.fnmatch` on strings (POSIX case behaviour: identity normcase). -/
def pyFnmatch (name pat : String) : Bool := globMatch pat.data name.data

/-! ## FileCache (lines 96-148)

The extracted tree is modelled as a list of files in `os.walk` order;
each file is given by its path components relative to the base
directory, the last component being its bare filename. -/

/-- One file entry produced by the recursive walk. -/
structure FEntry where
  rel : List String
deriving DecidableEq, Repr

/-- The bare filename (`file` in the walk loop, line 111). -/
def FEntry.fname (e : FEntry) : String := e.rel.getLastD ""

/-- The path relative to the base directory (`rel_path`, line 113). -/
def FEntry.relPath (e : FEntry) : String := String.intercalate "/" e.rel

/-- The absolute path (`full_path`, line 112). -/
def fullPath (base : String) (e : FEntry) : String := base ++ "/" ++ e.relPath

/-- The two caches of `FileCache` (lines 98-101): filename to list of
absolute paths, and relative path to absolute path. -/
structure FileCache where
  base : String
  file_cache : List (String × List String)
  path_cache : List (String × String)
deriving DecidableEq, Repr

/-- Ordered-dict lookup. -/
def lookupAssoc {α : Type} : List (String × α) → String → Option α
  | [], _ => none
  | p :: rest, k => if p.1 = k then some p.2 else lookupAssoc rest k

/-- Append a value to the list held under a key, keeping dict insertion
order; a new key goes to the end (lines 115-118). -/
def insertAppend (k v : String) : List (String × List String) → List (String × List String)
  | [] => [(k, [v])]
  | (k0, vs) :: rest =>
    if k0 = k then (k0, vs ++ [v]) :: rest else (k0, vs) :: insertAppend k v rest

/-- Replace the value held under a key in place (last scanned wins); a
new key goes to the end (line 121). -/
def insertReplace (k v : String) : List (String × String) → List (String × String)
  | [] => [(k, v)]
  | (k0, v0) :: rest =>
    if k0 = k then (k0, v) :: rest else (k0, v0) :: insertReplace k v rest

/-- One iteration of the walk loop body (lines 110-121). -/
def scanStep (c : FileCache) (e : FEntry) : FileCache :=
  { c with
    file_cache := insertAppend e.fname (fullPath c.base e) c.file_cache
    path_cache := insertReplace e.relPath (fullPath c.base e) c.path_cache }

/-- `_scan_once` starting from empty caches (lines 104-121, as reached
from `__init__`). -/
def scanOnce (base : String) (tree : List FEntry) : FileCache :=
  tree.foldl scanStep ⟨base, [], []⟩

/-- `refresh` (lines 144-148): clear both caches, then rescan. -/
def FileCache.refresh (c : FileCache) (tree : List FEntry) : FileCache :=
  tree.foldl scanStep ⟨c.base, [], []⟩

/-- The wildcard stage of `find_files` (lines 131-134): paths of every
cached filename matching the pattern, in cache order. -/
def nameMatches (c : FileCache) (pattern : String) : List String :=
  ((c.file_cache.filter (fun p => pyFnmatch p.1 pattern)).map Prod.snd).flatten

/-- The relative-path stage of `find_files` (lines 136-140): wildcard or
substring match on relative paths, appending each absolute path not
already collected. -/
def pathStage (c : FileCache) (pattern : String) (acc : List String) : List String :=
  c.path_cache.foldl
    (fun ms p =>
      if (pyFnmatch p.1 pattern || containsSub p.1 pattern) && !(ms.contains p.2)
      then ms ++ [p.2] else ms)
    acc

/-- `find_files` (lines 123-142): exact-name hit returns the cached
list; otherwise the wildcard stage runs and then the relative-path
stage runs over its result. -/
def find_files (c : FileCache) (pattern : String) : List String :=
  match lookupAssoc c.file_cache pattern with
  | some paths => paths
  | none => pathStage c pattern (nameMatches c pattern)

/-- A `find_files` call as a state transition: the method reads the
caches and mutates neither. -/
def find_files_call (c : FileCache) (pattern : String) : List String × FileCache :=
  (find_files c pattern, c)

/-- Stated from the spec wording of C6: exact-name lookup first; ELSE
wildcard match on names; ELSE wildcard/substring match on relative
paths — each later stage consulted only when the earlier produced
nothing.  To be compared against `find_files` above. -/
def find_files_claimChain (c : FileCache) (pattern : String) : List String :=
  match lookupAssoc c.file_cache pattern with
  | some paths => paths
  | none =>
    let m1 := nameMatches c pattern
    if m1 ≠ [] then m1 else pathStage c pattern []

/-- The two-file tree distinguishing the cumulative stages from the
claimed else-chain. -/
def tree0 : List FEntry := [⟨["d1", "ax"]⟩, ⟨["x2", "b"]⟩]

/-! ## process_large_file_streaming (lines 220-242)

The file is modelled as `none` when it does not exist or cannot be
opened (both return the empty accumulator, lines 223-224 and 239-241),
or `some lines` when readable. -/

/-- One match record (lines 232-236). -/
structure FMatch where
  line_number : Nat
  content : String
  pattern : String
deriving DecidableEq, Repr

/-- The inner pattern loop of one line (lines 230-238): append a record
per matching pattern and stop the whole scan once the accumulated count
reaches the limit. -/
def scanPatterns (lineNo : Nat) (line : String) (maxMatches : Nat) :
    List String → List FMatch → List FMatch × Bool
  | [], acc => (acc, false)
  | p :: ps, acc =>
    if containsSub line p then
      let acc2 := acc ++ [⟨lineNo, line, p⟩]
      if maxMatches ≤ acc2.length then (acc2, true)
      else scanPatterns lineNo line maxMatches ps acc2
    else scanPatterns lineNo line maxMatches ps acc

/-- The line loop (lines 228-238): lines are enumerated from zero and
recorded one-based; each line is stripped before matching. -/
def scanLines (patterns : List String) (maxMatches : Nat) :
    List String → Nat → List FMatch → List FMatch
  | [], _, acc => acc
  | line :: rest, lineNo, acc =>
    match scanPatterns (lineNo + 1) (pyStrip line) maxMatches patterns acc with
    | (acc2, true) => acc2
    | (acc2, false) => scanLines patterns maxMatches rest (lineNo + 1) acc2

/-- `process_large_file_streaming` (lines 220-242). -/
def process_large_file_streaming (file : Option (List String))
    (patterns : List String) (maxMatches : Nat) : List FMatch :=
  match file with
  | none => []
  | some lines => scanLines patterns maxMatches lines 0 []

/-- The unlimited match list of the same scan, for stating the early
termination as a prefix property. -/
def allMatchesFrom (patterns : List String) : List String → Nat → List FMatch
  | [], _ => []
  | line :: rest, lineNo =>
    ((patterns.filter (fun p => containsSub (pyStrip line) p)).map
      (fun p => FMatch.mk (lineNo + 1) (pyStrip line) p)) ++ allMatchesFrom patterns rest (lineNo + 1)

/-- All matches of a readable file, without any limit. -/
def allMatches (lines patterns : List String) : List FMatch :=
  allMatchesFrom patterns lines 0

/-! ## Result aggregate and check runner (lines 53-73, 205-218, 3510-3601)

Statuses are kept as strings so that membership in the documented
status set is a real statement about the embedded writes. -/

/-- One check entry: status string and ordered details (lines 57-71). -/
structure CheckResult where
  status : String
  details : List String
deriving DecidableEq, Repr

/-- The registered check names, in the insertion order of the results
dictionary (lines 57-71). -/
def registeredChecks : List String :=
  ["version_check", "subnet_check", "node_status", "ping_check", "disk_space",
   "pod_status", "system_health", "techsupport", "certificate_check", "iso_check",
   "lvm_pvs_check", "persistent_ip_check", "atom0_nvme_check", "atom0_vg_check",
   "nxos_discovery_service"]

/-- Every check entry starts as PASS with empty details (lines 57-71). -/
def initChecks : List (String × CheckResult) :=
  registeredChecks.map (fun n => (n, ⟨"PASS", []⟩))

/-- A single mutation of one entry, as the check bodies perform them:
a status assignment, a details replacement, a details append, or a
whole-entry replacement (the latter used at line 2098). -/
inductive Wr
  | setStatus (n s : String)
  | setDetails (n : String) (ds : List String)
  | addDetail (n d : String)
  | setEntry (n : String) (e : CheckResult)
deriving DecidableEq, Repr

/-- The entry a write touches. -/
def Wr.target : Wr → String
  | .setStatus n _ => n
  | .setDetails n _ => n
  | .addDetail n _ => n
  | .setEntry n _ => n

/-- Update the entry held under an existing key in place (a Python dict
item write on a present key; every write site in the source uses one of
the fifteen registered literal names). -/
def updEntry (agg : List (String × CheckResult)) (n : String)
    (f : CheckResult → CheckResult) : List (String × CheckResult) :=
  agg.map (fun p => if p.1 = n then (p.1, f p.2) else p)

/-- Apply one write. -/
def applyWr (agg : List (String × CheckResult)) : Wr → List (String × CheckResult)
  | .setStatus n s => updEntry agg n (fun e => ⟨s, e.details⟩)
  | .setDetails n ds => updEntry agg n (fun e => ⟨e.status, ds⟩)
  | .addDetail n d => updEntry agg n (fun e => ⟨e.status, e.details ++ [d]⟩)
  | .setEntry n e => updEntry agg n (fun _ => e)

/-- Apply the writes of one body in program order. -/
def applyWrites (ws : List Wr) (agg : List (String × CheckResult)) :
    List (String × CheckResult) :=
  ws.foldl applyWr agg

/-- One check invocation as observed at the runner boundary: the entry
writes the body performed, and the message of an unhandled exception if
one escaped (`writes` are those executed before the fault). -/
structure BodyRun where
  writes : List Wr
  fault : Option String

/-- The per-check fault boundary.  `robust_check` (lines 205-218) for
the decorated checks and the per-check handlers of `main` (lines
3510-3601) for the rest both convert an escaped exception into status
FAIL with the single detail `Check failed: <message>` on the check's
own entry, and the run continues with the next check. -/
def runCheck (own : String) (b : BodyRun) (agg : List (String × CheckResult)) :
    List (String × CheckResult) :=
  let agg1 := applyWrites b.writes agg
  match b.fault with
  | none => agg1
  | some m => updEntry agg1 own (fun _ => ⟨"FAIL", ["Check failed: " ++ m]⟩)

/-- Run a sequence of check invocations (the check phase of `main`). -/
def runChecks (cs : List (String × BodyRun)) (agg : List (String × CheckResult)) :
    List (String × CheckResult) :=
  cs.foldl (fun a nb => runCheck nb.1 nb.2 a) agg

/-- The check invocation order of `main` (lines 3512-3597). -/
def checkOrder : List String :=
  ["subnet_check", "ping_check", "node_status", "disk_space", "pod_status",
   "system_health", "nxos_discovery_service", "certificate_check", "iso_check",
   "lvm_pvs_check", "persistent_ip_check", "atom0_nvme_check", "atom0_vg_check"]

/-- The marking applied by the top-level exception handler (lines
3628-3632): every entry still holding empty details is forced to FAIL
with a "did not run" detail. -/
def markNotRun (msg : String) (agg : List (String × CheckResult)) :
    List (String × CheckResult) :=
  agg.map (fun p =>
    if p.2.details = [] then
      (p.1, ⟨"FAIL", ["Check did not run due to script error: " ++ msg]⟩)
    else p)

/-- The heartbeat record (lines 76-82). -/
structure Heartbeat where
  status : String
  current_operation : String
  progress : Nat
deriving DecidableEq, Repr

/-- What a finished process run leaves behind. -/
structure RunOutcome where
  exitCode : Nat
  heartbeat : Heartbeat
  agg : List (String × CheckResult)
  resultsSaved : Bool

/-- `signal_handler` (lines 319-324): mark the heartbeat interrupted,
persist the aggregate unchanged, exit with code 130. -/
def signal_handler (agg : List (String × CheckResult)) : RunOutcome :=
  ⟨130, ⟨"interrupted", "Script interrupted by user", 0⟩, agg, true⟩

/-- The regex search for `Nexus Dashboard\s+(\S+)` (line 773): the
literal text followed by at least one whitespace and then at least one
non-whitespace character, anywhere in the output. -/
def nexusAt (s : List Char) : Bool :=
  lstarts s ("Nexus Dashboard".data) &&
    (let rest := s.drop ("Nexus Dashboard".data.length)
     let ws := rest.takeWhile isPySpace
     !ws.isEmpty && !(rest.drop ws.length).isEmpty)

/-- Search the regex at every position. -/
def nexusSearch : List Char → Bool
  | [] => nexusAt []
  | c :: t => nexusAt (c :: t) || nexusSearch t

/-- The version section of `check_node_status` (lines 771-787) — the
one piece of a check body that writes ANOTHER check's entry: from the
output of `acs version` it replaces the `version_check` details, or on
empty output elevates `version_check` to WARNING with an appended
detail. -/
def nodeStatusVersionWrites (acsVersionOut : String) : List Wr :=
  if acsVersionOut ≠ "" then
    if nexusSearch acsVersionOut.data then
      [.setDetails "version_check" ["Version returned correctly"]]
    else
      [.setDetails "version_check" ["Version information found"]]
  else
    [.setStatus "version_check" "WARNING",
     .addDetail "version_check" "Could not determine version"]

/-! ## Archive extraction (lines 3107-3181 and 3188-3292)

External command outcomes are modelled as booleans; the attempted
strategies are recorded as a step trace so that the fallback chain is a
statement, not an implementation detail. -/

/-- An extraction strategy attempt. -/
inductive XStep
  | tarXzf
  | tarXf
  | gzipPipe
  | logsTarXzf
  | logsTarXf
deriving DecidableEq, Repr

/-- Environment of `extract_techsupport` (lines 3188-3292). -/
structure ExtractEnv where
  fileExists : Bool
  xzfOk : Bool
  xfOk : Bool
  logsTgzPresent : Bool
  logsXzfOk : Bool
  dirsFound : Bool
deriving DecidableEq, Repr

/-- `extract_techsupport` (lines 3188-3292): compressed tar, then plain
tar, then give up; after success the nested `logs.tgz` is extracted with
the same two tar forms, its outcome ignored; finally the destination
must contain directories.  Returns the final aggregate, the attempted
steps, and whether extraction reached the success end. -/
def extract_techsupport (env : ExtractEnv) (generateMode : Bool) (filePath : String)
    (agg : List (String × CheckResult)) :
    List (String × CheckResult) × List XStep × Bool :=
  if !env.fileExists then
    (applyWrites [.setStatus "techsupport" "FAIL",
        .addDetail "techsupport" ("Tech support file " ++ filePath ++ " not found")] agg,
     [], false)
  else
    let steps1 := [XStep.tarXzf] ++ (if env.xzfOk then [] else [XStep.tarXf])
    if !env.xzfOk && !env.xfOk then
      (applyWrites [.setStatus "techsupport" "FAIL",
          .addDetail "techsupport" "Failed to extract tech support"] agg,
       steps1, false)
    else
      let steps2 := steps1 ++
        (if env.logsTgzPresent then
          [XStep.logsTarXzf] ++ (if env.logsXzfOk then [] else [XStep.logsTarXf])
         else [])
      if !env.dirsFound then
        (applyWrites [.setStatus "techsupport" "FAIL",
            .addDetail "techsupport" "No directories found after extraction"] agg,
         steps2, false)
      else
        (applyWrites [.setDetails "techsupport"
            [if generateMode then "Tech support generated and extracted successfully"
             else "Tech support extracted successfully"]] agg,
         steps2, true)

/-- Environment of `extract_techsupport_optimized` (lines 3108-3181). -/
structure OptExtractEnv where
  fileExists : Bool
  xzfOk : Bool
  xfOk : Bool
  gzipPipeOk : Bool
  logsTgzPresent : Bool
  logsXzfOk : Bool
  itemsFound : Bool
  dirCount : Nat
  fileCount : Nat
  sizeHuman : String
deriving DecidableEq, Repr

/-- `extract_techsupport_optimized` (lines 3108-3181): one shell command
`tar -xzf || tar -xf`, then on failure the streamed `gzip -dc | tar -xf -`
pipeline, raising when the file is absent or every method failed; the
nested `logs.tgz` again uses only the two tar forms with its outcome
ignored.  (Wrapped by `robust_check("techsupport")` at its call sites.) -/
def extract_techsupport_optimized (env : OptExtractEnv)
    (agg : List (String × CheckResult)) :
    Except String (List (String × CheckResult) × List XStep) :=
  if !env.fileExists then .error "Tech support file not found"
  else
    let steps1 := [XStep.tarXzf] ++ (if env.xzfOk then [] else [XStep.tarXf])
    if !env.xzfOk && !env.xfOk && !env.gzipPipeOk then
      .error "All extraction methods failed"
    else
      let steps2 := steps1 ++ (if env.xzfOk || env.xfOk then [] else [XStep.gzipPipe])
      let steps3 := steps2 ++
        (if env.logsTgzPresent then
          [XStep.logsTarXzf] ++ (if env.logsXzfOk then [] else [XStep.logsTarXf])
         else [])
      if env.itemsFound then
        .ok (applyWrites [.setStatus "techsupport" "PASS",
            .addDetail "techsupport"
              ("Optimized extraction: " ++ toString env.dirCount ++ " dirs, " ++
               toString env.fileCount ++ " files, saved " ++ env.sizeHuman)] agg,
          steps3)
      else
        .ok (applyWrites [.addDetail "techsupport" "Extraction completed with empty result"] agg,
          steps3)

/-- Stated from the spec wording of C8: compressed-tar, else plain-tar,
else the streamed pipeline — first success wins.  To be compared with
the success outcomes of the two extraction functions above. -/
def claimedExtractChain (xzfOk xfOk streamOk : Bool) : Bool :=
  xzfOk || xfOk || streamOk

/-- Whether an Except value is a success. -/
def exceptOk {e a : Type} : Except e a → Bool
  | .ok _ => true
  | .error _ => false

/-! ## Archive selection (lines 3015-3042) -/

/-- One archive-storage file with its modification time. -/
structure TsFile where
  path : String
  mtime : Nat
deriving DecidableEq, Repr

/-- Stable insertion keeping newest-first order: an earlier-listed file
goes before any equally old later one, matching the stable
`sort(key=mtime, reverse=True)` of line 3037. -/
def insertDesc (x : TsFile) : List TsFile → List TsFile
  | [] => [x]
  | y :: ys => if y.mtime ≤ x.mtime then x :: y :: ys else y :: insertDesc x ys

/-- Sort newest first, stably. -/
def sortByMtimeDesc : List TsFile → List TsFile
  | [] => []
  | x :: xs => insertDesc x (sortByMtimeDesc xs)

/-- `select_techsupport` (lines 3015-3042): a given, existing explicit
file is used; otherwise the newest file of the archive storage matching
the node identity; failure when that listing is empty. -/
def select_techsupport (specific : Option String) (specificExists : Bool)
    (globFiles : List TsFile) (agg : List (String × CheckResult)) :
    Option String × List (String × CheckResult) :=
  if (match specific with
      | some p => !(p = "") && specificExists
      | none => false) then
    (specific, agg)
  else
    if globFiles = [] then
      (none, applyWrites [.setStatus "techsupport" "FAIL",
          .addDetail "techsupport" "No tech support files found"] agg)
    else
      match sortByMtimeDesc globFiles with
      | [] => (none, agg)
      | newest :: _ => (some newest.path, agg)

/-- Stated from the spec wording of C9: with an explicit path, validate
its existence and use it; OTHERWISE list the storage and take the most
recently modified; fail when none exist. -/
def select_claimChain (specific : Option String) (specificExists : Bool)
    (globFiles : List TsFile) : Option String :=
  match specific with
  | some p => if specificExists then some p else none
  | none =>
    match sortByMtimeDesc globFiles with
    | [] => none
    | newest :: _ => some newest.path

/-! ## main (lines 3439-3642) -/

/-- Environment of one `main` run. -/
structure MainEnv where
  techFile : Option String
  extractEnv : ExtractEnv
  generateMode : Bool
  filePath : String
  bodies : List BodyRun

/-- How the run ends: normally, or with an unexpected exception escaping
to the top-level handler (line 3618) after some number of checks ran. -/
inductive RunMode
  | normal
  | fatalAfter (k : Nat) (msg : String)

/-- `main` without interruption (lines 3439-3642): a missing archive
exits 1 (lines 3482-3487); otherwise extraction runs WITH ITS OUTCOME
DISCARDED (line 3508), the checks run behind their fault boundaries, and
the run completes with exit 0; an unexpected top-level exception marks
unstarted checks and exits 1 (lines 3618-3636). -/
def mainRun (env : MainEnv) (mode : RunMode) : RunOutcome :=
  match env.techFile with
  | none =>
    (⟨1, ⟨"error", "Failed to obtain tech support file", 0⟩,
      applyWrites [.setStatus "techsupport" "FAIL",
        .setDetails "techsupport" ["Failed to obtain tech support file"]] initChecks,
      true⟩ : RunOutcome)
  | some _ =>
    let ext := extract_techsupport env.extractEnv env.generateMode env.filePath initChecks
    match mode with
    | .normal =>
      ⟨0, ⟨"complete", "All operations completed", 100⟩,
        runChecks (checkOrder.zip env.bodies) ext.1, true⟩
    | .fatalAfter k msg =>
      ⟨1, ⟨"error", "Error: " ++ msg, 0⟩,
        markNotRun msg (runChecks ((checkOrder.zip env.bodies).take k) ext.1), true⟩

/-- The C4 claim as stated: exit code 1 exactly when no archive was
obtained or extraction failed outright. -/
def C4ClaimHolds : Prop :=
  ∀ env : MainEnv,
    ((mainRun env .normal).exitCode = 1 ↔
      (env.techFile = none ∨
        (extract_techsupport env.extractEnv env.generateMode env.filePath initChecks).2.2
          = false))

/-! ## Heartbeat progress trace (C5)

Each check writes its single progress value on entry (lines 606, 1755,
765, 901, 1107, 1376, 1499, 1847, 1964, 2088, 2187, 2445, 2650); `main`
invokes the checks in the order of lines 3512-3597. -/

/-- Progress values the check phase writes, in invocation order:
subnet 93, ping 92, node status 92, disk 94, pods 96, health 98,
nxos 98, certificate 95, isos 95, lvm 95, persistent ip 97, nvme 97,
atom0 vg 98. -/
def checkPhaseProgress : List Nat :=
  [93, 92, 92, 94, 96, 98, 98, 95, 95, 95, 97, 97, 98]

/-- The full progress sequence of a normal select-mode run: selection
start 10 and selected 20 (lines 3018, 3041), extraction start 50 and
complete 90 (lines 3194, 3286), the check phase, completion 100
(line 3612). -/
def normalRunProgress : List Nat :=
  [10, 20] ++ [50, 90] ++ checkPhaseProgress ++ [100]

/-- Non-decreasing, as an executable check. -/
def nonDecreasing : List Nat → Bool
  | [] => true
  | [_] => true
  | a :: b :: t => a ≤ b && nonDecreasing (b :: t)

/-! ## The two evidence checks of C3 (lines 1844-1958 and 1961-2076) -/

/-- Split into lines (Python `split('\n')`), structurally. -/
def splitAux (sep : Char) : List Char → List Char → List (List Char)
  | [], cur => [cur.reverse]
  | c :: t, cur =>
    if c = sep then cur.reverse :: splitAux sep t [] else splitAux sep t (c :: cur)

/-- Python `s.split('\n')`. -/
def splitLinesStr (s : String) : List String :=
  (splitAux '\n' s.data []).map String.mk

/-- `"\n    ".join(text.strip().split('\n'))` as used to indent the
first match for the report (lines 1944-1945, 2055-2056). -/
def indent4Join (s : String) : String :=
  String.intercalate "\n    " (splitLinesStr (pyStrip s))

/-- Environment of `check_CA_CSCwm35992`. -/
structure CAEnv where
  smLogFound : Bool
  searchOutput : String
  smDirsFound : Bool
  logsDirExists : Bool
  commonDirsFound : Bool
deriving DecidableEq, Repr

/-- The matches of the CA check (lines 1870-1874): the unified zgrep
output, stripped and split, when it is non-empty, lacks the
`No matches found` marker and holds the search string. -/
def caMatches (e : CAEnv) : List String :=
  if e.smLogFound && !(e.searchOutput = "") &&
      !(containsSub e.searchOutput "No matches found") &&
      containsSub e.searchOutput "a valid config key must consist of alphanumeric characters"
  then splitLinesStr (pyStrip e.searchOutput) else []

/-- `check_CA_CSCwm35992` outcome for the certificate entry (lines
1844-1958).  On the path where no SM logs, no SM directories, no logs
directory and no common directories exist, line 1919 reads the local
`files_found`, which was never assigned: the check raises
`UnboundLocalError` (caught by its `robust_check` boundary). -/
def check_CA (e : CAEnv) : Except String CheckResult :=
  if e.smLogFound then
    match caMatches e with
    | [] => .ok ⟨"PASS", ["No certificate issues found in SM logs"]⟩
    | m :: _ =>
      .ok ⟨"FAIL", ["Certificate name validation error detected: \n\n    " ++ indent4Join m]⟩
  else if e.smDirsFound then
    .ok ⟨"WARNING", ["Found SM directories but no log files to analyze"]⟩
  else if e.logsDirExists then
    .ok ⟨"WARNING", ["Found logs directory but no SM log files"]⟩
  else if e.commonDirsFound then
    .ok ⟨"WARNING", ["Tech support is missing logs/k8_infra directory"]⟩
  else
    .error "local variable referenced before assignment"

/-- Environment of `check_ISOs_CSCwn94394`. -/
structure ISOEnv where
  bootHookFound : Bool
  searchOutput : String
  confDiagExists : Bool
  commonDirsFound : Bool
  isoListOutput : String
deriving DecidableEq, Repr

/-- The matches of the ISO check (lines 1983-1987). -/
def isoMatches (e : ISOEnv) : List String :=
  if e.bootHookFound && !(e.searchOutput = "") &&
      !(lstarts e.searchOutput.data ("Error:".data)) &&
      containsSub e.searchOutput "invalid number of ISO"
  then splitLinesStr (pyStrip e.searchOutput) else []

/-- The leftmost `"iso list":[...]` capture of one line (line 2044):
the text after the first occurrence of the literal prefix that is
followed by a closing bracket, up to that bracket. -/
def isoCapture : List Char → Option (List Char)
  | [] => none
  | c :: t =>
    if lstarts (c :: t) (("\"iso list\":[").data) then
      let rest := (c :: t).drop (("\"iso list\":[").data.length)
      if rest.contains ']' then some (rest.takeWhile (fun d => !(d = ']'))) else none
    else isoCapture t

/-- The first line containing `iso list` whose capture succeeds yields
the comma-split, stripped item list (lines 2040-2048). -/
def isoFirstHit : List String → List String
  | [] => []
  | line :: rest =>
    if containsSub line "iso list" then
      match isoCapture line.data with
      | some cap =>
        (splitAux ',' cap []).map (fun cs => pyStripChars [' ', '"', '\''] (String.mk cs))
      | none => isoFirstHit rest
    else isoFirstHit rest

/-- The extracted ISO list (lines 2033-2048). -/
def isoListOf (isoOutput : String) : List String :=
  if !(isoOutput = "") && containsSub isoOutput "iso list" then
    isoFirstHit (splitLinesStr (pyStrip isoOutput))
  else []

/-- The FAIL details of the ISO check (lines 2050-2069). -/
def isoFailDetails (firstMatch : String) (isoList : List String) : List String :=
  if !(isoList = []) then
    ["Multiple ISOs in boot-hook detected: \n\n    " ++ indent4Join firstMatch ++
      "\n\n    Multiple ISOs found:\n    " ++
      String.intercalate "\n    "
        ((List.range isoList.length).zip isoList |>.map
          (fun p => "[" ++ toString (p.1 + 1) ++ "] " ++ p.2))]
  else
    ["Multiple ISOs in boot-hook detected: \n\n    " ++ indent4Join firstMatch]

/-- `check_ISOs_CSCwn94394` outcome for the ISO entry (lines
1961-2076): with no matches, ERROR when no evidence structure was
examined at all, PASS otherwise; FAIL only on an evidenced hit. -/
def check_ISOs (e : ISOEnv) : CheckResult :=
  let files_examined :=
    if e.bootHookFound then true
    else if e.confDiagExists then true
    else e.commonDirsFound
  match isoMatches e with
  | [] =>
    if !files_examined then
      ⟨"ERROR", ["Unable to find boot-hook logs for multiple ISO check"]⟩
    else
      ⟨"PASS", ["No multiple ISO issues found"]⟩
  | m :: _ => ⟨"FAIL", isoFailDetails m (isoListOf e.isoListOutput)⟩

/-! ## Aggregate well-formedness predicates (C1) -/

/-- The documented status values (section 3 of the spec; the source
assigns only these four strings). -/
def statusSet : List String := ["PASS", "WARNING", "FAIL", "ERROR"]

/-- A well-formed entry: a documented status, and details present
whenever the status is not PASS. -/
def EntryInv (e : CheckResult) : Prop :=
  e.status ∈ statusSet ∧ (e.status ≠ "PASS" → e.details ≠ [])

/-- Every entry of the aggregate is well-formed. -/
def AggInv (agg : List (String × CheckResult)) : Prop :=
  ∀ p ∈ agg, EntryInv p.2

/-- A body whose executed writes preserve aggregate well-formedness.
Justified by a survey of every write site in the source: each non-PASS
status assignment is accompanied, in the same branch, by a non-empty
details replacement or an append, and only the four documented status
strings are ever assigned. -/
def WFBody (b : BodyRun) : Prop :=
  ∀ agg, AggInv agg → AggInv (applyWrites b.writes agg)

/-! ### Cache construction lemmas -/

/-- The filename cache as a standalone fold. -/
def fcFold (base : String) (tree : List FEntry) (fc0 : List (String × List String)) :
    List (String × List String) :=
  tree.foldl (fun fc e => insertAppend e.fname (fullPath base e) fc) fc0

theorem scanFold_base (tree : List FEntry) (c0 : FileCache) :
    (tree.foldl scanStep c0).base = c0.base := by
  induction tree generalizing c0 with
  | nil => rfl
  | cons e t ih =>
    simp only [List.foldl_cons]
    rw [ih]
    rfl

theorem scanFold_file_cache (tree : List FEntry) (c0 : FileCache) :
    (tree.foldl scanStep c0).file_cache = fcFold c0.base tree c0.file_cache := by
  induction tree generalizing c0 with
  | nil => rfl
  | cons e t ih =>
    simp only [List.foldl_cons]
    rw [ih]
    rfl

theorem scanOnce_file_cache (base : String) (tree : List FEntry) :
    (scanOnce base tree).file_cache = fcFold base tree [] :=
  scanFold_file_cache tree ⟨base, [], []⟩

theorem lookupAssoc_insertAppend_self (l : List (String × List String)) (k v : String) :
    lookupAssoc (insertAppend k v l) k = some ((lookupAssoc l k).getD [] ++ [v]) := by
  induction l with
  | nil => simp [insertAppend, lookupAssoc]
  | cons p rest ih =>
    obtain ⟨k0, vs⟩ := p
    by_cases h : k0 = k
    · subst h
      simp [insertAppend, lookupAssoc]
    · simp [insertAppend, h, lookupAssoc, ih]

theorem lookupAssoc_insertAppend_ne (l : List (String × List String)) (k v k2 : String)
    (h : k2 ≠ k) : lookupAssoc (insertAppend k v l) k2 = lookupAssoc l k2 := by
  have hne : ¬(k = k2) := fun hh => h hh.symm
  induction l with
  | nil => simp [insertAppend, lookupAssoc, hne]
  | cons p rest ih =>
    obtain ⟨k0, vs⟩ := p
    by_cases h0 : k0 = k
    · subst h0
      simp [insertAppend, lookupAssoc, hne]
    · by_cases h2 : k0 = k2
      · subst h2
        simp [insertAppend, h0, lookupAssoc]
      · simp [insertAppend, h0, h2, lookupAssoc, ih]

theorem fcFold_lookup_some (base : String) (tree : List FEntry)
    {fc0 : List (String × List String)} {k : String} {vs : List String}
    (h : lookupAssoc fc0 k = some vs) :
    lookupAssoc (fcFold base tree fc0) k =
      some (vs ++ (tree.filter (fun e => e.fname = k)).map (fullPath base)) := by
  induction tree generalizing fc0 vs with
  | nil => simp [fcFold, h]
  | cons e t ih =>
    by_cases he : e.fname = k
    · have h2 : lookupAssoc (insertAppend e.fname (fullPath base e) fc0) k
          = some (vs ++ [fullPath base e]) := by
        rw [he, lookupAssoc_insertAppend_self, h]
        rfl
      have h3 := ih h2
      simp only [fcFold, List.foldl_cons] at h3 ⊢
      rw [h3, List.filter_cons_of_pos (by simp [he])]
      simp
    · have h2 : lookupAssoc (insertAppend e.fname (fullPath base e) fc0) k
          = some vs := by
        rw [lookupAssoc_insertAppend_ne _ _ _ _ (fun hh => he hh.symm), h]
      have h3 := ih h2
      simp only [fcFold, List.foldl_cons] at h3 ⊢
      rw [h3, List.filter_cons_of_neg (by simp [he])]

theorem fcFold_lookup_none (base : String) (tree : List FEntry)
    {fc0 : List (String × List String)} {k : String}
    (h : lookupAssoc fc0 k = none) :
    lookupAssoc (fcFold base tree fc0) k =
      if (tree.filter (fun e => e.fname = k)) = [] then none
      else some ((tree.filter (fun e => e.fname = k)).map (fullPath base)) := by
  induction tree generalizing fc0 with
  | nil => simp [fcFold, h]
  | cons e t ih =>
    by_cases he : e.fname = k
    · have h2 : lookupAssoc (insertAppend e.fname (fullPath base e) fc0) k
          = some [fullPath base e] := by
        rw [he, lookupAssoc_insertAppend_self, h]
        rfl
      have h3 := fcFold_lookup_some base t h2
      simp only [fcFold, List.foldl_cons] at h3 ⊢
      rw [h3, List.filter_cons_of_pos (by simp [he])]
      simp
    · have h2 : lookupAssoc (insertAppend e.fname (fullPath base e) fc0) k
          = none := by
        rw [lookupAssoc_insertAppend_ne _ _ _ _ (fun hh => he hh.symm), h]
      have h3 := ih h2
      simp only [fcFold, List.foldl_cons] at h3 ⊢
      rw [h3, List.filter_cons_of_neg (by simp [he])]

theorem keys_insertAppend (k v : String) (l : List (String × List String)) :
    (insertAppend k v l).map Prod.fst =
      if k ∈ l.map Prod.fst then l.map Prod.fst else l.map Prod.fst ++ [k] := by
  induction l with
  | nil => simp [insertAppend]
  | cons p rest ih =>
    obtain ⟨k0, vs⟩ := p
    by_cases h : k0 = k
    · subst h
      simp [insertAppend]
    · have hne : ¬(k = k0) := fun hh => h hh.symm
      by_cases hm : k ∈ rest.map Prod.fst <;>
        simp [insertAppend, h, ih, hm, hne]

theorem keys_nodup_insertAppend (k v : String) (l : List (String × List String))
    (h : (l.map Prod.fst).Nodup) : ((insertAppend k v l).map Prod.fst).Nodup := by
  rw [keys_insertAppend]
  by_cases hm : k ∈ l.map Prod.fst
  · simpa [hm] using h
  · simp only [hm, if_false]
    simp [List.nodup_append, h, hm]

theorem fcFold_keys_nodup (base : String) (tree : List FEntry)
    (fc0 : List (String × List String)) (h : (fc0.map Prod.fst).Nodup) :
    ((fcFold base tree fc0).map Prod.fst).Nodup := by
  induction tree generalizing fc0 with
  | nil => exact h
  | cons e t ih =>
    simp only [fcFold, List.foldl_cons] at *
    exact ih _ (keys_nodup_insertAppend _ _ _ h)

theorem lookupAssoc_of_mem {α : Type} {l : List (String × α)}
    (hnd : (l.map Prod.fst).Nodup) {p : String × α} (hp : p ∈ l) :
    lookupAssoc l p.1 = some p.2 := by
  induction l with
  | nil => simp at hp
  | cons q rest ih =>
    simp only [List.map_cons, List.nodup_cons] at hnd
    rcases List.mem_cons.mp hp with h | h
    · subst h
      simp [lookupAssoc]
    · have hne : q.1 ≠ p.1 := by
        intro hq
        exact hnd.1 (hq ▸ List.mem_map_of_mem Prod.fst h)
      simp [lookupAssoc, hne, ih hnd.2 h]

theorem lookupAssoc_mem {α : Type} {l : List (String × α)} {k : String} {v : α}
    (h : lookupAssoc l k = some v) : (k, v) ∈ l := by
  induction l with
  | nil => simp [lookupAssoc] at h
  | cons q rest ih =>
    simp only [lookupAssoc] at h
    split at h
    · rename_i hq
      simp only [Option.some.injEq] at h
      subst h
      exact List.mem_cons.mpr (Or.inl (by rw [← hq]))
    · exact List.mem_cons.mpr (Or.inr (ih h))

/-- Every entry of the built filename cache holds precisely the absolute
paths, in walk order, of the tree files bearing that name. -/
theorem mem_fcFold_eq (base : String) (tree : List FEntry)
    {p : String × List String} (hp : p ∈ fcFold base tree []) :
    p.2 = (tree.filter (fun e => e.fname = p.1)).map (fullPath base) := by
  have hnd := fcFold_keys_nodup base tree [] (by simp)
  have hl := lookupAssoc_of_mem hnd hp
  have h0 : lookupAssoc ([] : List (String × List String)) p.1 = none := rfl
  have hc := fcFold_lookup_none base tree h0
  rw [hl] at hc
  split at hc
  · exact absurd hc (by simp)
  · simp only [Option.some.injEq] at hc
    exact hc

/-- The per-name path lists drawn from a built cache are individually
duplicate-free and pairwise disjoint, so their concatenation is
duplicate-free. -/
theorem flatten_filter_nodup (base : String) (tree : List FEntry)
    (h : (tree.map (fullPath base)).Nodup) (f : String × List String → Bool) :
    (((fcFold base tree []).filter f).map Prod.snd).flatten.Nodup := by
  apply List.nodup_flatten.mpr
  constructor
  · intro l hl
    obtain ⟨p, hp, hpl⟩ := List.mem_map.mp hl
    have hpf : p ∈ fcFold base tree [] := List.mem_of_mem_filter hp
    rw [← hpl, mem_fcFold_eq base tree hpf]
    exact h.sublist ((List.filter_sublist tree).map _)
  · have hkeys := fcFold_keys_nodup base tree [] (by simp)
    have h2 : (fcFold base tree []).Pairwise (fun p q => p.1 ≠ q.1) :=
      List.pairwise_map.mp hkeys
    have h1 : ((fcFold base tree []).filter f).Pairwise (fun p q => p.1 ≠ q.1) :=
      h2.sublist (List.filter_sublist _)
    apply List.pairwise_map.mpr
    refine h1.imp_of_mem ?_
    intro p q hp hq hne
    intro x hxp hxq
    have hpf : p ∈ fcFold base tree [] := List.mem_of_mem_filter hp
    have hqf : q ∈ fcFold base tree [] := List.mem_of_mem_filter hq
    rw [mem_fcFold_eq base tree hpf] at hxp
    rw [mem_fcFold_eq base tree hqf] at hxq
    obtain ⟨e1, he1, hfe1⟩ := List.mem_map.mp hxp
    obtain ⟨e2, he2, hfe2⟩ := List.mem_map.mp hxq
    have he1t : e1 ∈ tree := List.mem_of_mem_filter he1
    have he2t : e2 ∈ tree := List.mem_of_mem_filter he2
    have hee : e1 = e2 := List.inj_on_of_nodup_map h he1t he2t (hfe1.trans hfe2.symm)
    have hk1 : e1.fname = p.1 := by simpa using List.of_mem_filter he1
    have hk2 : e2.fname = q.1 := by simpa using List.of_mem_filter he2
    exact hne (hk1 ▸ hk2 ▸ congrArg FEntry.fname hee)

theorem nameMatches_nodup (base : String) (tree : List FEntry) (pattern : String)
    (h : (tree.map (fullPath base)).Nodup) :
    (nameMatches (scanOnce base tree) pattern).Nodup := by
  unfold nameMatches
  rw [scanOnce_file_cache]
  exact flatten_filter_nodup base tree h _

theorem pathFold_nodup (pattern : String) (l : List (String × String)) :
    ∀ acc : List String, acc.Nodup →
      (l.foldl (fun ms p =>
        if (pyFnmatch p.1 pattern || containsSub p.1 pattern) && !(ms.contains p.2)
        then ms ++ [p.2] else ms) acc).Nodup := by
  induction l with
  | nil => intro acc h; exact h
  | cons p rest ih =>
    intro acc h
    simp only [List.foldl_cons]
    apply ih
    split
    · rename_i hcond
      have hnm : p.2 ∉ acc := by
        simp only [Bool.and_eq_true] at hcond
        simpa using hcond.2
      simp [List.nodup_append, h, hnm]
    · exact h

theorem pathStage_nodup (c : FileCache) (pattern : String) {acc : List String}
    (h : acc.Nodup) : (pathStage c pattern acc).Nodup :=
  pathFold_nodup pattern c.path_cache acc h

theorem pathFold_id (pattern : String) (l : List (String × String))
    (hall : ∀ p ∈ l, (pyFnmatch p.1 pattern || containsSub p.1 pattern) = false) :
    ∀ acc : List String,
      l.foldl (fun ms p =>
        if (pyFnmatch p.1 pattern || containsSub p.1 pattern) && !(ms.contains p.2)
        then ms ++ [p.2] else ms) acc = acc := by
  induction l with
  | nil => intro acc; rfl
  | cons p rest ih =>
    intro acc
    have hp := hall p (List.mem_cons_self _ _)
    rw [List.foldl_cons, if_neg (by simp [hp])]
    exact ih (fun q hq => hall q (List.mem_cons_of_mem _ hq)) acc

/-- C6 counterexample: the claim says the relative-path stage is consulted
only when the name-wildcard stage found nothing ("... else ...").  On the
two-file tree `tree0` with pattern `*x*` the name stage already matches
`ax`, yet `find_files` still adds the path-stage hit `x2/b`, so the code
differs from the claimed else-chain at this concrete input. -/
theorem C6_counterexample :
    find_files (scanOnce "/b" tree0) "*x*" ≠
      find_files_claimChain (scanOnce "/b" tree0) "*x*" ∧
    find_files (scanOnce "/b" tree0) "*x*" = ["/b/d1/ax", "/b/x2/b"] ∧
    find_files_claimChain (scanOnce "/b" tree0) "*x*" = ["/b/d1/ax"] :=
  ⟨by decide, by decide, by decide⟩

/-- C6 (amended): `find_files` serves an exact-name hit from the cache;
otherwise it returns the name-wildcard matches FOLLOWED BY (cumulative,
not else) the relative-path wildcard/substring matches; the result is
deduplicated with first-seen order kept (the path stage appends only
paths not yet collected), and when nothing matches at any stage the
result is the empty list — the function is total, never an error. -/
theorem C6_find_files_cumulative (base : String) (tree : List FEntry) (pattern : String)
    (h : (tree.map (fullPath base)).Nodup) :
    (find_files (scanOnce base tree) pattern).Nodup ∧
    (∀ ps, lookupAssoc (scanOnce base tree).file_cache pattern = some ps →
        find_files (scanOnce base tree) pattern = ps) ∧
    (lookupAssoc (scanOnce base tree).file_cache pattern = none →
        find_files (scanOnce base tree) pattern =
          pathStage (scanOnce base tree) pattern (nameMatches (scanOnce base tree) pattern)) ∧
    ((∀ p ∈ (scanOnce base tree).file_cache, pyFnmatch p.1 pattern = false) →
      (∀ p ∈ (scanOnce base tree).path_cache,
          (pyFnmatch p.1 pattern || containsSub p.1 pattern) = false) →
      lookupAssoc (scanOnce base tree).file_cache pattern = none →
      find_files (scanOnce base tree) pattern = []) := by
  refine ⟨?_, ?_, ?_, ?_⟩
  · cases hl : lookupAssoc (scanOnce base tree).file_cache pattern with
    | some ps =>
      have hfind : find_files (scanOnce base tree) pattern = ps := by
        simp [find_files, hl]
      rw [hfind]
      rw [scanOnce_file_cache] at hl
      have hmem := lookupAssoc_mem hl
      have := mem_fcFold_eq base tree hmem
      simp only at this
      rw [this]
      exact h.sublist ((List.filter_sublist tree).map _)
    | none =>
      have hfind : find_files (scanOnce base tree) pattern =
          pathStage (scanOnce base tree) pattern (nameMatches (scanOnce base tree) pattern) := by
        simp [find_files, hl]
      rw [hfind]
      exact pathStage_nodup _ _ (nameMatches_nodup base tree pattern h)
  · intro ps hl
    simp [find_files, hl]
  · intro hl
    simp [find_files, hl]
  · intro h1 h2 hl
    have hnm : nameMatches (scanOnce base tree) pattern = [] := by
      unfold nameMatches
      have : (scanOnce base tree).file_cache.filter (fun p => pyFnmatch p.1 pattern) = [] := by
        rw [List.filter_eq_nil_iff]
        intro p hp
        simp [h1 p hp]
      rw [this]
      rfl
    have hfind : find_files (scanOnce base tree) pattern =
        pathStage (scanOnce base tree) pattern (nameMatches (scanOnce base tree) pattern) := by
      simp [find_files, hl]
    rw [hfind, hnm]
    exact pathFold_id pattern (scanOnce base tree).path_cache h2 []

/-- C6 witness: the amended facts evaluated on the concrete tree. -/
theorem C6_witness :
    (find_files (scanOnce "/b" tree0) "*x*").Nodup ∧
    find_files (scanOnce "/b" tree0) "ax" = ["/b/d1/ax"] := by
  constructor
  · exact (C6_find_files_cumulative "/b" tree0 "*x*" (by decide)).1
  · exact (C6_find_files_cumulative "/b" tree0 "ax" (by decide)).2.1 ["/b/d1/ax"] (by decide)

/-- C7: an exact-name `find_files` query returns exactly the paths the
last build recorded for that name (the tree files bearing the name, in
walk order); a `find_files` call mutates no cache state, so repeated
calls agree; and `refresh` — clearing both caches and rescanning — over
the unchanged tree rebuilds the identical cache, reproducing every
query result. -/
theorem C7_find_exact_refresh (base : String) (tree : List FEntry) (n pattern : String)
    (h : tree.filter (fun e => e.fname = n) ≠ []) :
    (find_files (scanOnce base tree) n =
        (tree.filter (fun e => e.fname = n)).map (fullPath base)) ∧
    (find_files_call ((find_files_call (scanOnce base tree) n).2) n =
        find_files_call (scanOnce base tree) n) ∧
    (FileCache.refresh (scanOnce base tree) tree = scanOnce base tree) ∧
    (find_files (FileCache.refresh (scanOnce base tree) tree) pattern =
        find_files (scanOnce base tree) pattern) := by
  have hrefresh : FileCache.refresh (scanOnce base tree) tree = scanOnce base tree := by
    show tree.foldl scanStep ⟨(scanOnce base tree).base, [], []⟩ = scanOnce base tree
    rw [show (scanOnce base tree).base = base from scanFold_base tree _]
    rfl
  refine ⟨?_, rfl, hrefresh, by rw [hrefresh]⟩
  have h0 : lookupAssoc ([] : List (String × List String)) n = none := rfl
  have hlook := fcFold_lookup_none base tree h0
  rw [if_neg h] at hlook
  have hl : lookupAssoc (scanOnce base tree).file_cache n =
      some ((tree.filter (fun e => e.fname = n)).map (fullPath base)) := by
    rw [scanOnce_file_cache]
    exact hlook
  simp [find_files, hl]

/-- C7 witness: evaluated on the concrete tree for the recorded name `ax`. -/
theorem C7_witness :
    find_files (scanOnce "/b" tree0) "ax" =
      (tree0.filter (fun e => e.fname = "ax")).map (fullPath "/b") ∧
    FileCache.refresh (scanOnce "/b" tree0) tree0 = scanOnce "/b" tree0 := by
  have h := C7_find_exact_refresh "/b" tree0 "ax" "*x*" (by decide)
  exact ⟨h.1, h.2.2.1⟩

/-! ### Streaming scanner lemmas -/

theorem scanPatterns_spec (lineNo : Nat) (line : String) (m : Nat) (ps : List String) :
    ∀ acc : List FMatch, acc.length < max m 1 →
      scanPatterns lineNo line m ps acc =
        (if max m 1 ≤ (acc ++ (ps.filter (fun p => containsSub line p)).map
              (fun p => FMatch.mk lineNo line p)).length
         then ((acc ++ (ps.filter (fun p => containsSub line p)).map
              (fun p => FMatch.mk lineNo line p)).take (max m 1), true)
         else (acc ++ (ps.filter (fun p => containsSub line p)).map
              (fun p => FMatch.mk lineNo line p), false)) := by
  induction ps with
  | nil =>
    intro acc hacc
    simp only [scanPatterns, List.filter_nil, List.map_nil, List.append_nil]
    rw [if_neg (Nat.not_le.mpr hacc)]
  | cons p ps ih =>
    intro acc hacc
    by_cases hc : containsSub line p = true
    · rw [List.filter_cons_of_pos hc]
      simp only [scanPatterns, hc, if_true, List.map_cons]
      by_cases hstop : m ≤ (acc ++ [FMatch.mk lineNo line p]).length
      · rw [if_pos hstop]
        have hmax : max m 1 = acc.length + 1 := by
          simp only [List.length_append, List.length_cons, List.length_nil] at hstop
          omega
        have hlen : max m 1 ≤ (acc ++ FMatch.mk lineNo line p ::
            (ps.filter (fun q => containsSub line q)).map
              (fun q => FMatch.mk lineNo line q)).length := by
          simp only [List.length_append, List.length_cons]
          omega
        rw [if_pos hlen]
        have hsplit : acc ++ FMatch.mk lineNo line p ::
            (ps.filter (fun q => containsSub line q)).map
              (fun q => FMatch.mk lineNo line q) =
            (acc ++ [FMatch.mk lineNo line p]) ++
              (ps.filter (fun q => containsSub line q)).map
                (fun q => FMatch.mk lineNo line q) := by
          simp
        rw [hsplit, List.take_append_of_le_length
            (by simp only [List.length_append, List.length_cons, List.length_nil]; omega)]
        have htk : (acc ++ [FMatch.mk lineNo line p]).take (max m 1) =
            acc ++ [FMatch.mk lineNo line p] := by
          apply List.take_of_length_le
          simp only [List.length_append, List.length_cons, List.length_nil]
          omega
        rw [htk]
      · rw [if_neg hstop]
        have hacc2 : (acc ++ [FMatch.mk lineNo line p]).length < max m 1 := by
          simp only [List.length_append, List.length_cons, List.length_nil] at hstop ⊢
          omega
        rw [ih _ hacc2]
        simp
    · have hcf : containsSub line p = false := by
        revert hc; cases containsSub line p <;> simp
      rw [List.filter_cons_of_neg (by simp [hcf])]
      simp only [scanPatterns, hcf]
      rw [if_neg (by simp)]
      exact ih acc hacc

theorem scanLines_spec (patterns : List String) (m : Nat) :
    ∀ (lines : List String) (lineNo : Nat) (acc : List FMatch),
      acc.length < max m 1 →
      scanLines patterns m lines lineNo acc =
        (acc ++ allMatchesFrom patterns lines lineNo).take (max m 1) := by
  intro lines
  induction lines with
  | nil =>
    intro lineNo acc hacc
    simp only [scanLines, allMatchesFrom, List.append_nil]
    exact (List.take_of_length_le (Nat.le_of_lt hacc)).symm
  | cons line rest ih =>
    intro lineNo acc hacc
    have hsp := scanPatterns_spec (lineNo + 1) (pyStrip line) m patterns acc hacc
    by_cases hif : max m 1 ≤ (acc ++ (patterns.filter (fun p => containsSub (pyStrip line) p)).map
        (fun p => FMatch.mk (lineNo + 1) (pyStrip line) p)).length
    · rw [if_pos hif] at hsp
      simp only [scanLines, hsp, allMatchesFrom]
      rw [← List.append_assoc, List.take_append_of_le_length hif]
    · rw [if_neg hif] at hsp
      simp only [scanLines, hsp, allMatchesFrom]
      rw [ih (lineNo + 1) _ (Nat.lt_of_not_le hif), ← List.append_assoc]

/-- The code equals the unlimited scan truncated at `max m 1`: early
termination, with the caveat that a zero (or negative) limit still
yields one record when anything matches. -/
theorem process_streaming_eq_take (lines patterns : List String) (m : Nat) :
    process_large_file_streaming (some lines) patterns m =
      (allMatches lines patterns).take (max m 1) := by
  have h0 : ([] : List FMatch).length < max m 1 := by
    have := Nat.le_max_right m 1
    simp only [List.length_nil]
    omega
  have := scanLines_spec patterns m lines 0 [] h0
  simpa [process_large_file_streaming, allMatches] using this

/-- C10 counterexample: with `max_matches = 0` and a one-line file whose
line contains the pattern, the code returns one match record — more
than the limit — because the length test runs only after an append. -/
theorem C10_counterexample :
    process_large_file_streaming (some ["abc"]) ["b"] 0 =
      [FMatch.mk 1 "abc" "b"] ∧
    ¬((process_large_file_streaming (some ["abc"]) ["b"] 0).length ≤ 0) :=
  ⟨by decide, by decide⟩

/-- C10 (amended): the returned list has at most `max max_matches 1`
records — hence at most `max_matches` whenever the limit is at least
one — the scan is the unlimited match list truncated at that bound
(early termination), and a missing or unopenable file yields the empty
list rather than an error. -/
theorem C10_streaming_bound (file : Option (List String)) (patterns : List String) (m : Nat) :
    (process_large_file_streaming file patterns m).length ≤ max m 1 ∧
    (1 ≤ m → (process_large_file_streaming file patterns m).length ≤ m) ∧
    process_large_file_streaming none patterns m = [] ∧
    (∀ lines, process_large_file_streaming (some lines) patterns m =
        (allMatches lines patterns).take (max m 1)) := by
  have hbound : (process_large_file_streaming file patterns m).length ≤ max m 1 := by
    cases file with
    | none => simp [process_large_file_streaming]
    | some lines =>
      rw [process_streaming_eq_take]
      simp only [List.length_take]
      omega
  refine ⟨hbound, ?_, rfl, fun lines => process_streaming_eq_take lines patterns m⟩
  intro hm
  have : max m 1 = m := Nat.max_eq_left hm
  omega

/-- C10 witness: bound and value evaluated on a concrete two-line file. -/
theorem C10_witness :
    (process_large_file_streaming (some ["abc", "bcd"]) ["b"] 1).length ≤ 1 ∧
    process_large_file_streaming (some ["abc", "bcd"]) ["b"] 1 = [FMatch.mk 1 "abc" "b"] := by
  constructor
  · exact (C10_streaming_bound (some ["abc", "bcd"]) ["b"] 1).2.1 (by decide)
  · rw [(C10_streaming_bound (some ["abc", "bcd"]) ["b"] 1).2.2.2 ["abc", "bcd"]]
    decide

/-! ### C3: the evidence-absence policy of the two cited checks -/

/-- C3 counterexample: with no boot-hook logs, no conf-diag directory
and no common directories — evidence fully absent — the ISO check
records status ERROR, not the claimed WARNING; and on the matching
fully-absent path the certificate check raises an unbound-local fault
(line 1919 reads the never-assigned `files_found`) instead of recording
WARNING. -/
theorem C3_counterexample :
    check_ISOs ⟨false, "", false, false, ""⟩ =
      ⟨"ERROR", ["Unable to find boot-hook logs for multiple ISO check"]⟩ ∧
    ¬((check_ISOs ⟨false, "", false, false, ""⟩).status = "WARNING") ∧
    check_CA ⟨false, "", false, false, false⟩ =
      .error "local variable referenced before assignment" :=
  ⟨by decide, by decide, rfl⟩

/-- C3 (amended): when no match is evidenced, the ISO check reports
ERROR (nothing at all to examine) or PASS (structure present but no
hit) and the certificate check reports WARNING (partial structure),
PASS (logs present but clean) or faults (nothing at all); FAIL is
recorded only when matches were positively evidenced. -/
theorem C3_absent_evidence (e1 : ISOEnv) (e2 : CAEnv) :
    (isoMatches e1 = [] →
      check_ISOs e1 = ⟨"ERROR", ["Unable to find boot-hook logs for multiple ISO check"]⟩ ∨
      check_ISOs e1 = ⟨"PASS", ["No multiple ISO issues found"]⟩) ∧
    ((check_ISOs e1).status = "FAIL" → isoMatches e1 ≠ []) ∧
    (caMatches e2 = [] →
      (∃ ds, check_CA e2 = .ok ⟨"WARNING", ds⟩) ∨
      check_CA e2 = .ok ⟨"PASS", ["No certificate issues found in SM logs"]⟩ ∨
      check_CA e2 = .error "local variable referenced before assignment") ∧
    (∀ r, check_CA e2 = .ok r → r.status = "FAIL" → caMatches e2 ≠ []) := by
  refine ⟨?_, ?_, ?_, ?_⟩
  · intro hm
    simp only [check_ISOs, hm]
    repeat' split
    all_goals first | exact Or.inl rfl | exact Or.inr rfl
  · intro hs hm
    simp only [check_ISOs, hm] at hs
    repeat' split at hs
    all_goals simp at hs
  · intro hm
    unfold check_CA
    rw [hm]
    split
    · exact Or.inr (Or.inl rfl)
    · split
      · exact Or.inl ⟨_, rfl⟩
      · split
        · exact Or.inl ⟨_, rfl⟩
        · split
          · exact Or.inl ⟨_, rfl⟩
          · exact Or.inr (Or.inr rfl)
  · intro r hr hs
    intro hm
    unfold check_CA at hr
    rw [hm] at hr
    split at hr
    · simp only [Except.ok.injEq] at hr
      rw [← hr] at hs
      simp at hs
    · split at hr
      · simp only [Except.ok.injEq] at hr
        rw [← hr] at hs
        simp at hs
      · split at hr
        · simp only [Except.ok.injEq] at hr
          rw [← hr] at hs
          simp at hs
        · split at hr
          · simp only [Except.ok.injEq] at hr
            rw [← hr] at hs
            simp at hs
          · exact Except.noConfusion hr

/-- C3 witness: the amended statement evaluated at the partial-absence
inputs — conf-diag present for the ISO check (PASS), SM directories
present for the certificate check (WARNING). -/
theorem C3_witness :
    (check_ISOs ⟨false, "", true, false, ""⟩ =
        ⟨"ERROR", ["Unable to find boot-hook logs for multiple ISO check"]⟩ ∨
      check_ISOs ⟨false, "", true, false, ""⟩ =
        ⟨"PASS", ["No multiple ISO issues found"]⟩) ∧
    ((∃ ds, check_CA ⟨false, "", true, false, false⟩ = .ok ⟨"WARNING", ds⟩) ∨
      check_CA ⟨false, "", true, false, false⟩ =
        .ok ⟨"PASS", ["No certificate issues found in SM logs"]⟩ ∨
      check_CA ⟨false, "", true, false, false⟩ =
        .error "local variable referenced before assignment") := by
  have h := C3_absent_evidence ⟨false, "", true, false, ""⟩ ⟨false, "", true, false, false⟩
  exact ⟨h.1 (by decide), h.2.2.1 (by decide)⟩

/-! ### C9: archive selection -/

theorem sortByMtimeDesc_ne_nil (x : TsFile) (l : List TsFile) :
    sortByMtimeDesc (x :: l) ≠ [] := by
  simp only [sortByMtimeDesc]
  cases hs : sortByMtimeDesc l with
  | nil => simp [insertDesc]
  | cons y ys =>
    simp only [insertDesc]
    split <;> simp

theorem sortByMtimeDesc_head_max (l : List TsFile) (h : TsFile) (t : List TsFile)
    (hs : sortByMtimeDesc l = h :: t) : ∀ y ∈ l, y.mtime ≤ h.mtime := by
  induction l generalizing h t with
  | nil => simp [sortByMtimeDesc] at hs
  | cons x xs ih =>
    simp only [sortByMtimeDesc] at hs
    cases hx : sortByMtimeDesc xs with
    | nil =>
      cases hxs : xs with
      | cons z zs => exact absurd (hxs ▸ hx) (sortByMtimeDesc_ne_nil z zs)
      | nil =>
        subst hxs
        rw [hx] at hs
        simp only [insertDesc, List.cons.injEq] at hs
        obtain ⟨rfl, -⟩ := hs
        intro y hy
        simp only [List.mem_cons, List.not_mem_nil, or_false] at hy
        subst hy
        exact le_refl _
    | cons y ys =>
      rw [hx] at hs
      simp only [insertDesc] at hs
      split at hs
      · rename_i hle
        simp only [List.cons.injEq] at hs
        obtain ⟨rfl, -⟩ := hs
        intro z hz
        rcases List.mem_cons.mp hz with rfl | hz2
        · exact le_refl _
        · exact le_trans (ih y ys hx z hz2) hle
      · rename_i hgt
        simp only [List.cons.injEq] at hs
        obtain ⟨rfl, -⟩ := hs
        intro z hz
        rcases List.mem_cons.mp hz with rfl | hz2
        · exact Nat.le_of_lt (Nat.lt_of_not_le hgt)
        · exact ih _ _ hx z hz2

/-- C9 counterexample: with an explicit path that does NOT exist and one
archive-storage file present, the code silently falls back to the
storage listing and returns that file, while the claimed behaviour
(validate the explicit path and use it, listing only otherwise) yields
no such fallback at this input. -/
theorem C9_counterexample :
    (select_techsupport (some "/nope.tgz") false
        [⟨"/techsupport/a.tgz", 5⟩] initChecks).1 = some "/techsupport/a.tgz" ∧
    select_claimChain (some "/nope.tgz") false [⟨"/techsupport/a.tgz", 5⟩] = none ∧
    (select_techsupport (some "/nope.tgz") false
        [⟨"/techsupport/a.tgz", 5⟩] initChecks).1 ≠
      select_claimChain (some "/nope.tgz") false [⟨"/techsupport/a.tgz", 5⟩] :=
  ⟨by decide, by decide, by decide⟩

/-- C9 (amended): a given, non-empty, existing explicit path is used;
in EVERY other case — including an explicit path that does not exist —
selection falls back to the archive-storage listing, returning the most
recently modified file (stably newest-first), and fails only when that
listing is empty. -/
theorem C9_select_fallback (specific : Option String) (specificExists : Bool)
    (globFiles : List TsFile) (agg : List (String × CheckResult)) :
    (∀ p, specific = some p → (!(p = "") && specificExists) = true →
        (select_techsupport specific specificExists globFiles agg).1 = some p) ∧
    ((∀ p, specific = some p → (!(p = "") && specificExists) = false) →
      (globFiles = [] →
        (select_techsupport specific specificExists globFiles agg).1 = none) ∧
      (∀ nf t, sortByMtimeDesc globFiles = nf :: t →
        (select_techsupport specific specificExists globFiles agg).1 = some nf.path ∧
        ∀ y ∈ globFiles, y.mtime ≤ nf.mtime)) := by
  constructor
  · intro p hp hval
    subst hp
    simp [select_techsupport, hval]
  · intro hno
    rcases specific with _ | p
    · refine ⟨?_, ?_⟩
      · intro hg
        subst hg
        simp [select_techsupport]
      · intro nf t hsort
        have hne : ¬(globFiles = []) := by
          intro hg
          subst hg
          simp [sortByMtimeDesc] at hsort
        refine ⟨?_, sortByMtimeDesc_head_max globFiles nf t hsort⟩
        simp [select_techsupport, hne, hsort]
    · have hv := hno p rfl
      refine ⟨?_, ?_⟩
      · intro hg
        subst hg
        simp [select_techsupport, hv]
      · intro nf t hsort
        have hne : ¬(globFiles = []) := by
          intro hg
          subst hg
          simp [sortByMtimeDesc] at hsort
        refine ⟨?_, sortByMtimeDesc_head_max globFiles nf t hsort⟩
        simp [select_techsupport, hv, hne, hsort]

/-! ### C8: extraction fallback chains -/

theorem extract_ts_spec (env : ExtractEnv) (gm : Bool) (fp : String)
    (agg : List (String × CheckResult)) (hf : env.fileExists = true) :
    ((extract_techsupport env gm fp agg).2.2 = ((env.xzfOk || env.xfOk) && env.dirsFound)) ∧
    ((extract_techsupport env gm fp agg).2.1 =
      [XStep.tarXzf] ++ (if env.xzfOk then [] else [XStep.tarXf]) ++
        (if (env.xzfOk || env.xfOk) && env.logsTgzPresent then
          [XStep.logsTarXzf] ++ (if env.logsXzfOk then [] else [XStep.logsTarXf])
         else [])) ∧
    (XStep.gzipPipe ∉ (extract_techsupport env gm fp agg).2.1) ∧
    (∀ b, (extract_techsupport { env with logsXzfOk := b } gm fp agg).2.2 =
        (extract_techsupport env gm fp agg).2.2) := by
  obtain ⟨fe, xz, xf, lp, lx, df⟩ := env
  replace hf : fe = true := hf
  subst hf
  refine ⟨?_, ?_, ?_, ?_⟩
  · cases xz <;> cases xf <;> cases lp <;> cases lx <;> cases df <;>
      simp [extract_techsupport]
  · cases xz <;> cases xf <;> cases lp <;> cases lx <;> cases df <;>
      simp [extract_techsupport]
  · cases xz <;> cases xf <;> cases lp <;> cases lx <;> cases df <;>
      simp [extract_techsupport]
  · intro b
    cases b <;> cases xz <;> cases xf <;> cases lp <;> cases lx <;> cases df <;>
      simp [extract_techsupport]

theorem extract_opt_spec (envO : OptExtractEnv)
    (agg : List (String × CheckResult)) (hfO : envO.fileExists = true) :
    (exceptOk (extract_techsupport_optimized envO agg) =
        (envO.xzfOk || envO.xfOk || envO.gzipPipeOk)) ∧
    ((extract_techsupport_optimized envO agg).toOption.map Prod.snd =
      if envO.xzfOk || envO.xfOk || envO.gzipPipeOk then
        some ([XStep.tarXzf] ++ (if envO.xzfOk then [] else [XStep.tarXf]) ++
          (if envO.xzfOk || envO.xfOk then [] else [XStep.gzipPipe]) ++
          (if envO.logsTgzPresent then
            [XStep.logsTarXzf] ++ (if envO.logsXzfOk then [] else [XStep.logsTarXf])
           else []))
      else none) ∧
    (∀ b, exceptOk (extract_techsupport_optimized { envO with logsXzfOk := b } agg) =
        exceptOk (extract_techsupport_optimized envO agg)) := by
  obtain ⟨fe, xz, xf, gz, lp, lx, items, dc, fc, sz⟩ := envO
  replace hfO : fe = true := hfO
  subst hfO
  refine ⟨?_, ?_, ?_⟩
  · cases xz <;> cases xf <;> cases gz <;> cases lp <;> cases lx <;> cases items <;>
      simp [extract_techsupport_optimized, exceptOk]
  · cases xz <;> cases xf <;> cases gz <;> cases lp <;> cases lx <;> cases items <;>
      simp [extract_techsupport_optimized, Except.toOption]
  · intro b
    cases b <;> cases xz <;> cases xf <;> cases gz <;> cases lp <;> cases lx <;>
      cases items <;> simp [extract_techsupport_optimized, exceptOk]

/-- C8 counterexample: an archive on which both tar forms fail but the
streamed pipeline would succeed.  `extract_techsupport` — the extraction
`main` performs — gives up after the two tar attempts without ever
trying a streamed stage, failing where the claimed three-stage chain
succeeds. -/
theorem C8_counterexample :
    (extract_techsupport ⟨true, false, false, false, false, true⟩ false "x.tgz"
        initChecks).2.2 = false ∧
    (extract_techsupport ⟨true, false, false, false, false, true⟩ false "x.tgz"
        initChecks).2.1 = [XStep.tarXzf, XStep.tarXf] ∧
    XStep.gzipPipe ∉
      (extract_techsupport ⟨true, false, false, false, false, true⟩ false "x.tgz"
        initChecks).2.1 ∧
    claimedExtractChain false false true = true :=
  ⟨by decide, by decide, by decide, by decide⟩

/-- C8 (amended): `extract_techsupport_optimized` tries compressed tar,
then plain tar, then the streamed decompress pipeline, the first success
winning; `extract_techsupport` — the path `main` uses — tries ONLY
compressed then plain tar and has no streamed stage.  After success both
check for the nested `logs.tgz` and extract it with the two tar forms
only (not the full chain), and the nested extraction's outcome never
changes the outer result. -/
theorem C8_extract_chains (env : ExtractEnv) (envO : OptExtractEnv) (gm : Bool)
    (fp : String) (agg : List (String × CheckResult))
    (hf : env.fileExists = true) (hfO : envO.fileExists = true) :
    ((extract_techsupport env gm fp agg).2.2 = ((env.xzfOk || env.xfOk) && env.dirsFound)) ∧
    ((extract_techsupport env gm fp agg).2.1 =
      [XStep.tarXzf] ++ (if env.xzfOk then [] else [XStep.tarXf]) ++
        (if (env.xzfOk || env.xfOk) && env.logsTgzPresent then
          [XStep.logsTarXzf] ++ (if env.logsXzfOk then [] else [XStep.logsTarXf])
         else [])) ∧
    (XStep.gzipPipe ∉ (extract_techsupport env gm fp agg).2.1) ∧
    (∀ b, (extract_techsupport { env with logsXzfOk := b } gm fp agg).2.2 =
        (extract_techsupport env gm fp agg).2.2) ∧
    (exceptOk (extract_techsupport_optimized envO agg) =
        (envO.xzfOk || envO.xfOk || envO.gzipPipeOk)) ∧
    ((extract_techsupport_optimized envO agg).toOption.map Prod.snd =
      if envO.xzfOk || envO.xfOk || envO.gzipPipeOk then
        some ([XStep.tarXzf] ++ (if envO.xzfOk then [] else [XStep.tarXf]) ++
          (if envO.xzfOk || envO.xfOk then [] else [XStep.gzipPipe]) ++
          (if envO.logsTgzPresent then
            [XStep.logsTarXzf] ++ (if envO.logsXzfOk then [] else [XStep.logsTarXf])
           else []))
      else none) ∧
    (∀ b, exceptOk (extract_techsupport_optimized { envO with logsXzfOk := b } agg) =
        exceptOk (extract_techsupport_optimized envO agg)) := by
  obtain ⟨h1, h2, h3, h4⟩ := extract_ts_spec env gm fp agg hf
  obtain ⟨h5, h6, h7⟩ := extract_opt_spec envO agg hfO
  exact ⟨h1, h2, h3, h4, h5, h6, h7⟩

/-- C8 witness: the chains evaluated at a concrete environment where the
compressed form fails, the plain form succeeds, and a nested archive is
present but its compressed extraction fails. -/
theorem C8_witness :
    (extract_techsupport ⟨true, false, true, true, false, true⟩ false "x.tgz"
        initChecks).2.2 = true ∧
    (extract_techsupport ⟨true, false, true, true, false, true⟩ false "x.tgz"
        initChecks).2.1 =
      [XStep.tarXzf, XStep.tarXf, XStep.logsTarXzf, XStep.logsTarXf] ∧
    exceptOk (extract_techsupport_optimized ⟨true, false, false, true, false, false, true, 2, 3, "1G"⟩
        initChecks) = true := by
  have h := C8_extract_chains ⟨true, false, true, true, false, true⟩
    ⟨true, false, false, true, false, false, true, 2, 3, "1G"⟩ false "x.tgz" initChecks
    rfl rfl
  refine ⟨?_, ?_, ?_⟩
  · rw [h.1]; decide
  · rw [h.2.1]; decide
  · rw [h.2.2.2.2.1]; decide

/-- C9 witness: both branches at concrete inputs — an existing explicit
file, and a pure listing with two files where the newer wins. -/
theorem C9_witness :
    (select_techsupport (some "/x.tgz") true [] initChecks).1 = some "/x.tgz" ∧
    (select_techsupport none false
        [⟨"/techsupport/old.tgz", 3⟩, ⟨"/techsupport/new.tgz", 7⟩] initChecks).1 =
      some "/techsupport/new.tgz" := by
  constructor
  · exact (C9_select_fallback (some "/x.tgz") true [] initChecks).1 "/x.tgz" rfl (by decide)
  · exact ((C9_select_fallback none false
        [⟨"/techsupport/old.tgz", 3⟩, ⟨"/techsupport/new.tgz", 7⟩] initChecks).2
        (fun p hp => by simp at hp) ).2 ⟨"/techsupport/new.tgz", 7⟩
        [⟨"/techsupport/old.tgz", 3⟩] (by decide) |>.1

/-! ### C4: exit codes and the interrupt path -/

/-- C4 counterexample: an archive is obtained but every extraction
strategy fails; `main` discards the extraction outcome (line 3508),
runs the checks and exits 0, while the claim requires exit code 1
exactly when extraction failed outright. -/
theorem C4_counterexample : ¬C4ClaimHolds := by
  intro h
  have h2 := (h (MainEnv.mk (some "/techsupport/t.tgz")
      ⟨true, false, false, false, false, true⟩ false "t.tgz" [])).mpr
    (Or.inr (by decide))
  have h3 : (mainRun (MainEnv.mk (some "/techsupport/t.tgz")
      ⟨true, false, false, false, false, true⟩ false "t.tgz" [])
      RunMode.normal).exitCode = 0 := by decide
  exact absurd (h2.symm.trans h3) (by decide)

/-- C4 (amended): exit code 1 when no archive was obtained (with an
error heartbeat) or when an unexpected top-level exception escapes;
exit code 0 whenever an archive was obtained and the run reaches the
end of the check phase, EVEN IF extraction failed outright — extraction
failure only marks the techsupport entry; results are persisted on
every path; the interrupt handler exits 130 after setting the heartbeat
to interrupted and persisting the aggregate unchanged. -/
theorem C4_exit_codes (env : MainEnv) (k : Nat) (msg : String)
    (agg : List (String × CheckResult)) :
    (env.techFile = none →
      (mainRun env .normal).exitCode = 1 ∧
      (mainRun env .normal).heartbeat.status = "error") ∧
    (env.techFile ≠ none →
      (mainRun env .normal).exitCode = 0 ∧
      (mainRun env .normal).heartbeat =
        ⟨"complete", "All operations completed", 100⟩) ∧
    (env.techFile ≠ none →
      (mainRun env (.fatalAfter k msg)).exitCode = 1 ∧
      (mainRun env (.fatalAfter k msg)).heartbeat.status = "error") ∧
    (∀ mode, (mainRun env mode).resultsSaved = true) ∧
    signal_handler agg =
      ⟨130, ⟨"interrupted", "Script interrupted by user", 0⟩, agg, true⟩ := by
  refine ⟨?_, ?_, ?_, ?_, rfl⟩
  · intro hn
    simp [mainRun, hn]
  · intro hn
    cases htf : env.techFile with
    | none => exact absurd htf hn
    | some f => simp [mainRun, htf]
  · intro hn
    cases htf : env.techFile with
    | none => exact absurd htf hn
    | some f => simp [mainRun, htf]
  · intro mode
    cases htf : env.techFile with
    | none => cases mode <;> simp [mainRun, htf]
    | some f => cases mode <;> simp [mainRun, htf]

/-- C4 witness: exit codes at concrete environments, and the interrupt
outcome on the initial aggregate. -/
theorem C4_witness :
    (mainRun (MainEnv.mk (some "/t.tgz") ⟨true, true, false, false, false, true⟩
        false "t.tgz" []) .normal).exitCode = 0 ∧
    (mainRun (MainEnv.mk none ⟨true, true, false, false, false, true⟩
        false "t.tgz" []) .normal).exitCode = 1 ∧
    (signal_handler initChecks).exitCode = 130 ∧
    (signal_handler initChecks).heartbeat.status = "interrupted" ∧
    (signal_handler initChecks).resultsSaved = true := by
  have ha := C4_exit_codes (MainEnv.mk (some "/t.tgz")
    ⟨true, true, false, false, false, true⟩ false "t.tgz" []) 0 "m" initChecks
  have hb := C4_exit_codes (MainEnv.mk none
    ⟨true, true, false, false, false, true⟩ false "t.tgz" []) 0 "m" initChecks
  refine ⟨(ha.2.1 (by simp)).1, (hb.1 rfl).1, ?_, ?_, ?_⟩
  · rw [ha.2.2.2.2]
  · rw [ha.2.2.2.2]
  · rw [ha.2.2.2.2]

/-! ### C2: fault isolation at the per-check boundary -/

theorem lookupAssoc_updEntry_self (agg : List (String × CheckResult)) (n : String)
    (f : CheckResult → CheckResult) :
    lookupAssoc (updEntry agg n f) n = (lookupAssoc agg n).map f := by
  induction agg with
  | nil => rfl
  | cons p rest ih =>
    by_cases hp : p.1 = n
    · simp [updEntry, lookupAssoc, hp]
    · simp only [updEntry, List.map_cons, if_neg hp]
      simp only [lookupAssoc, if_neg hp]
      exact ih

theorem lookupAssoc_updEntry_ne (agg : List (String × CheckResult)) (n n2 : String)
    (f : CheckResult → CheckResult) (h : n2 ≠ n) :
    lookupAssoc (updEntry agg n f) n2 = lookupAssoc agg n2 := by
  induction agg with
  | nil => rfl
  | cons p rest ih =>
    by_cases hp : p.1 = n
    · have hp2 : ¬(p.1 = n2) := by
        rw [hp]
        exact fun hh => h hh.symm
      simp only [updEntry, List.map_cons, if_pos hp]
      simp only [lookupAssoc, if_neg hp2]
      exact ih
    · simp only [updEntry, List.map_cons, if_neg hp]
      by_cases hq : p.1 = n2
      · simp [lookupAssoc, hq]
      · simp only [lookupAssoc, if_neg hq]
        exact ih

theorem applyWr_frame (agg : List (String × CheckResult)) (w : Wr) (n : String)
    (h : Wr.target w ≠ n) : lookupAssoc (applyWr agg w) n = lookupAssoc agg n := by
  cases w <;> simp only [applyWr, Wr.target] at h ⊢ <;>
    exact lookupAssoc_updEntry_ne agg _ n _ (fun hh => h hh.symm)

theorem applyWrites_frame (ws : List Wr) (agg : List (String × CheckResult)) (n : String)
    (h : ∀ w ∈ ws, Wr.target w ≠ n) :
    lookupAssoc (applyWrites ws agg) n = lookupAssoc agg n := by
  induction ws generalizing agg with
  | nil => rfl
  | cons w rest ih =>
    simp only [applyWrites, List.foldl_cons] at ih ⊢
    rw [ih _ (fun q hq => h q (List.mem_cons_of_mem _ hq)),
      applyWr_frame agg w n (h w (List.mem_cons_self _ _))]

theorem applyWr_lookup_isSome (agg : List (String × CheckResult)) (w : Wr)
    (n : String) (h : (lookupAssoc agg n).isSome) :
    (lookupAssoc (applyWr agg w) n).isSome := by
  by_cases hm : n = Wr.target w
  · obtain ⟨e, he⟩ := Option.isSome_iff_exists.mp h
    cases w <;> simp only [applyWr, Wr.target] at hm ⊢ <;>
      (subst hm; rw [lookupAssoc_updEntry_self, he]; rfl)
  · cases w <;> simp only [applyWr, Wr.target] at hm ⊢ <;>
      (rw [lookupAssoc_updEntry_ne _ _ _ _ hm]; exact h)

theorem applyWrites_lookup_isSome (ws : List Wr) (agg : List (String × CheckResult))
    (n : String) (h : (lookupAssoc agg n).isSome) :
    (lookupAssoc (applyWrites ws agg) n).isSome := by
  induction ws generalizing agg with
  | nil => exact h
  | cons w rest ih =>
    simp only [applyWrites, List.foldl_cons] at ih ⊢
    exact ih _ (applyWr_lookup_isSome agg w n h)

/-- C2 counterexample: inject a fault into `check_node_status` after its
version section ran with empty `acs version` output.  The boundary
converts the fault on the `node_status` entry only, but the body had
already written the `version_check` entry — another check's entry — so
that entry differs from its pre-invocation value, contradicting the
claim that every other check's status and details are left completely
unchanged. -/
theorem C2_counterexample :
    lookupAssoc (runCheck "node_status"
        ⟨nodeStatusVersionWrites "", some "injected fault"⟩ initChecks) "version_check" =
      some ⟨"WARNING", ["Could not determine version"]⟩ ∧
    lookupAssoc initChecks "version_check" = some ⟨"PASS", []⟩ ∧
    lookupAssoc (runCheck "node_status"
        ⟨nodeStatusVersionWrites "", some "injected fault"⟩ initChecks) "node_status" =
      some ⟨"FAIL", ["Check failed: injected fault"]⟩ ∧
    ("version_check" : String) ≠ "node_status" :=
  ⟨by decide, by decide, by decide, by decide⟩

/-- C2 (amended): an unhandled exception inside a check's body is caught
at that check's boundary and converted into status FAIL with the fault
message as the sole detail on that check's own entry; the BOUNDARY
writes nothing else — entries the faulting body itself never wrote are
left unchanged — and the runner unconditionally proceeds to the next
check; but writes the body performed on another check's entry before
faulting (as `check_node_status` does on `version_check`) persist. -/
theorem C2_fault_conversion (own : String) (ws : List Wr) (m : String)
    (agg : List (String × CheckResult)) (e0 : CheckResult)
    (h : lookupAssoc agg own = some e0) :
    (lookupAssoc (runCheck own ⟨ws, some m⟩ agg) own =
      some ⟨"FAIL", ["Check failed: " ++ m]⟩) ∧
    (∀ n, n ≠ own → (∀ w ∈ ws, Wr.target w ≠ n) →
      lookupAssoc (runCheck own ⟨ws, some m⟩ agg) n = lookupAssoc agg n) ∧
    (∀ c cs, runChecks (c :: cs) agg = runChecks cs (runCheck c.1 c.2 agg)) := by
  refine ⟨?_, ?_, fun c cs => rfl⟩
  · have hsome : (lookupAssoc (applyWrites ws agg) own).isSome :=
      applyWrites_lookup_isSome ws agg own (by simp [h])
    obtain ⟨e1, he1⟩ := Option.isSome_iff_exists.mp hsome
    simp only [runCheck]
    rw [lookupAssoc_updEntry_self, he1]
    rfl
  · intro n hn hws
    simp only [runCheck]
    rw [lookupAssoc_updEntry_ne _ _ _ _ hn, applyWrites_frame ws agg n hws]

/-- C2 witness: the conversion and the frame evaluated on the initial
aggregate for a faulting `disk_space` check with no prior writes. -/
theorem C2_witness :
    lookupAssoc (runCheck "disk_space" ⟨[], some "boom"⟩ initChecks) "disk_space" =
      some ⟨"FAIL", ["Check failed: boom"]⟩ ∧
    lookupAssoc (runCheck "disk_space" ⟨[], some "boom"⟩ initChecks) "ping_check" =
      lookupAssoc initChecks "ping_check" := by
  have h := C2_fault_conversion "disk_space" [] "boom" initChecks ⟨"PASS", []⟩ (by decide)
  exact ⟨h.1, h.2.1 "ping_check" (by decide) (by simp)⟩

/-! ### C1: the aggregate after a complete run -/

theorem updEntry_keys (agg : List (String × CheckResult)) (n : String)
    (f : CheckResult → CheckResult) :
    (updEntry agg n f).map Prod.fst = agg.map Prod.fst := by
  induction agg with
  | nil => rfl
  | cons p rest ih =>
    unfold updEntry at ih ⊢
    simp only [List.map_cons, ih]
    split <;> rfl

theorem applyWr_keys (agg : List (String × CheckResult)) (w : Wr) :
    (applyWr agg w).map Prod.fst = agg.map Prod.fst := by
  cases w <;> simp only [applyWr] <;> exact updEntry_keys ..

theorem applyWrites_keys (ws : List Wr) (agg : List (String × CheckResult)) :
    (applyWrites ws agg).map Prod.fst = agg.map Prod.fst := by
  induction ws generalizing agg with
  | nil => rfl
  | cons w rest ih =>
    simp only [applyWrites, List.foldl_cons] at ih ⊢
    rw [ih, applyWr_keys]

theorem runCheck_keys (own : String) (b : BodyRun) (agg : List (String × CheckResult)) :
    (runCheck own b agg).map Prod.fst = agg.map Prod.fst := by
  unfold runCheck
  cases b.fault with
  | none => exact applyWrites_keys ..
  | some m => rw [updEntry_keys, applyWrites_keys]

theorem runChecks_keys (cs : List (String × BodyRun)) (agg : List (String × CheckResult)) :
    (runChecks cs agg).map Prod.fst = agg.map Prod.fst := by
  induction cs generalizing agg with
  | nil => rfl
  | cons c rest ih =>
    simp only [runChecks, List.foldl_cons] at ih ⊢
    rw [ih, runCheck_keys]

theorem markNotRun_keys (msg : String) (agg : List (String × CheckResult)) :
    (markNotRun msg agg).map Prod.fst = agg.map Prod.fst := by
  induction agg with
  | nil => rfl
  | cons p rest ih =>
    unfold markNotRun at ih ⊢
    simp only [List.map_cons, ih]
    split <;> rfl

theorem initChecks_keys : initChecks.map Prod.fst = registeredChecks := by decide

theorem initChecks_inv : AggInv initChecks := by
  intro p hp
  obtain ⟨n, hn, rfl⟩ := List.mem_map.mp hp
  exact ⟨by simp [statusSet], fun hne => absurd rfl hne⟩

theorem updEntry_inv (agg : List (String × CheckResult)) (n : String)
    (f : CheckResult → CheckResult) (h : AggInv agg) (hf : ∀ e, EntryInv (f e)) :
    AggInv (updEntry agg n f) := by
  intro p hp
  unfold updEntry at hp
  obtain ⟨q, hq, hgq⟩ := List.mem_map.mp hp
  by_cases hqn : q.1 = n
  · rw [if_pos hqn] at hgq
    rw [← hgq]
    exact hf q.2
  · rw [if_neg hqn] at hgq
    rw [← hgq]
    exact h q hq

theorem markNotRun_inv (msg : String) (agg : List (String × CheckResult))
    (h : AggInv agg) : AggInv (markNotRun msg agg) := by
  intro p hp
  unfold markNotRun at hp
  obtain ⟨q, hq, hgq⟩ := List.mem_map.mp hp
  by_cases hqd : q.2.details = []
  · rw [if_pos hqd] at hgq
    rw [← hgq]
    exact ⟨by simp [statusSet], fun _ => by simp⟩
  · rw [if_neg hqd] at hgq
    rw [← hgq]
    exact h q hq

theorem runCheck_inv (own : String) (b : BodyRun) (agg : List (String × CheckResult))
    (hWF : WFBody b) (h : AggInv agg) : AggInv (runCheck own b agg) := by
  unfold runCheck
  cases b.fault with
  | none => exact hWF agg h
  | some m =>
    exact updEntry_inv _ _ _ (hWF agg h) (fun e => ⟨by simp [statusSet], fun _ => by simp⟩)

theorem runChecks_inv (cs : List (String × BodyRun)) (agg : List (String × CheckResult))
    (hWF : ∀ nb ∈ cs, WFBody nb.2) (h : AggInv agg) : AggInv (runChecks cs agg) := by
  induction cs generalizing agg with
  | nil => exact h
  | cons c rest ih =>
    simp only [runChecks, List.foldl_cons] at ih ⊢
    exact ih _ (fun nb hnb => hWF nb (List.mem_cons_of_mem _ hnb))
      (runCheck_inv c.1 c.2 agg (hWF c (List.mem_cons_self _ _)) h)

/-- C1 counterexample: an interrupt arriving before any check has run.
The handler persists the aggregate unchanged, so `subnet_check` — a
registered check that never ran — keeps its default PASS status and
empty details: it is NOT force-set to FAIL/ERROR with a "did not run"
detail, contradicting the claim for the interrupt case. -/
theorem C1_counterexample :
    (signal_handler (runChecks ((checkOrder.zip ([] : List BodyRun)).take 0)
        initChecks)).agg = initChecks ∧
    lookupAssoc (signal_handler (runChecks ((checkOrder.zip ([] : List BodyRun)).take 0)
        initChecks)).agg "subnet_check" = some ⟨"PASS", []⟩ ∧
    "subnet_check" ∈ registeredChecks ∧
    ¬(("PASS" : String) = "FAIL" ∨ ("PASS" : String) = "ERROR") :=
  ⟨by decide, by decide, by decide, by decide⟩

/-- C1 (amended): on every completion path the aggregate holds exactly
the fifteen registered names; provided each body's executed writes
preserve entry well-formedness (as every write site in the source
does), every entry has a documented status with non-empty details
whenever it is not PASS; on the top-level-error path every entry whose
details are still empty is force-set to FAIL with a "did not run"
detail; on the interrupt path the aggregate is persisted unchanged, so
never-ran checks keep their default PASS with empty details. -/
theorem C1_aggregate_invariant (bodies : List BodyRun) (k : Nat) (msg : String)
    (hWF : ∀ b ∈ bodies, WFBody b) :
    ((runChecks (checkOrder.zip bodies) initChecks).map Prod.fst = registeredChecks ∧
      AggInv (runChecks (checkOrder.zip bodies) initChecks)) ∧
    ((markNotRun msg (runChecks ((checkOrder.zip bodies).take k) initChecks)).map Prod.fst
        = registeredChecks ∧
      AggInv (markNotRun msg (runChecks ((checkOrder.zip bodies).take k) initChecks)) ∧
      (∀ p ∈ runChecks ((checkOrder.zip bodies).take k) initChecks, p.2.details = [] →
        (p.1, (⟨"FAIL", ["Check did not run due to script error: " ++ msg]⟩ : CheckResult)) ∈
          markNotRun msg (runChecks ((checkOrder.zip bodies).take k) initChecks))) ∧
    ((signal_handler (runChecks ((checkOrder.zip bodies).take k) initChecks)).agg =
        runChecks ((checkOrder.zip bodies).take k) initChecks ∧
      AggInv (signal_handler (runChecks ((checkOrder.zip bodies).take k) initChecks)).agg) := by
  have hzip : ∀ nb ∈ checkOrder.zip bodies, WFBody nb.2 := by
    intro nb hnb
    exact hWF nb.2 (List.of_mem_zip hnb).2
  have htake : ∀ nb ∈ (checkOrder.zip bodies).take k, WFBody nb.2 := by
    intro nb hnb
    exact hzip nb (List.take_subset k _ hnb)
  have hinvTake : AggInv (runChecks ((checkOrder.zip bodies).take k) initChecks) :=
    runChecks_inv _ _ htake initChecks_inv
  refine ⟨⟨?_, runChecks_inv _ _ hzip initChecks_inv⟩, ⟨?_, markNotRun_inv _ _ hinvTake, ?_⟩,
    rfl, hinvTake⟩
  · rw [runChecks_keys, initChecks_keys]
  · rw [markNotRun_keys, runChecks_keys, initChecks_keys]
  · intro p hp hd
    unfold markNotRun
    have hmem := List.mem_map_of_mem
      (fun q => if q.2.details = [] then
        (q.1, (⟨"FAIL", ["Check did not run due to script error: " ++ msg]⟩ : CheckResult))
        else q) hp
    simpa [hd] using hmem

/-- C1 witness: the amended facts at the empty body list (no check ran)
with the trivially well-formed bodies hypothesis. -/
theorem C1_witness :
    (runChecks (checkOrder.zip ([] : List BodyRun)) initChecks).map Prod.fst
      = registeredChecks ∧
    AggInv (markNotRun "m" (runChecks ((checkOrder.zip ([] : List BodyRun)).take 0)
      initChecks)) := by
  have h := C1_aggregate_invariant [] 0 "m" (fun b hb => absurd hb (List.not_mem_nil b))
  exact ⟨h.1.1, h.2.1.2.1⟩

/-! ### C5: heartbeat progress monotonicity -/

/-- C5 counterexample: the progress trace of a normal run is NOT
non-decreasing — the subnet check writes 93 and the very next update,
from the ping check, writes 92. -/
theorem C5_counterexample :
    nonDecreasing normalRunProgress = false ∧
    normalRunProgress[4]? = some 93 ∧ normalRunProgress[5]? = some 92 :=
  ⟨by decide, by decide, by decide⟩

/-- C5 (amended): progress is non-decreasing through selection and
extraction (10, 20, 50, 90) and the run ends at 100, but the
check-phase values oscillate within 92..98 (93 then 92, 98 then 95),
so the full sequence is not monotone; every value stays within
10..100. -/
theorem C5_progress_phases :
    nonDecreasing (normalRunProgress.take 4) = true ∧
    normalRunProgress.getLast? = some 100 ∧
    (∀ p ∈ checkPhaseProgress, 92 ≤ p ∧ p ≤ 98) ∧
    (∀ p ∈ normalRunProgress, 10 ≤ p ∧ p ≤ 100) :=
  ⟨by decide, by decide, by decide, by decide⟩

end NDWorker
